import Mathlib

/-!
Verification development for the OCR movement-data extraction engine
(`OCRService.extractMovementData` and its helpers).

The TypeScript source is embedded shallowly:

* Strings are `List Char`; the JavaScript regular expressions used by the
  extractors are embedded as data (`Re`) and executed by a backtracking
  matcher (`msplits`) that returns the possible suffix/capture pairs in
  JavaScript preference order (leftmost position, greedy/lazy quantifier
  order, left alternative first).  `scanAll` models `String.matchAll` /
  `String.match` with the `g` flag (list of full matches), `jsSearch`
  models `String.match` without `g` (first match with capture groups).
* JavaScript numbers are `ℚ` (every value handled by the code is an exact
  small decimal, so rationals are a faithful model), `parseFloat` is
  `jsParseFloat`, `Math.round` is `jsRound`.
* Dates are modelled at millisecond granularity: `new Date(y, m, d)` is
  `jsDateDays` (proleptic Gregorian with JavaScript's month/day rollover
  and the 0..99 → 1900+ year rule), timestamps are `ℤ` milliseconds, and
  the system clock `new Date()` is an explicit parameter `now : ℤ`.
  `Date.prototype.toISOString().split('T')[0]` is `isoOfDays`.  The code
  re-derives a timestamp from an ISO string it has just produced
  (`new Date(parsedDate)`); since that round-trip is exact in JavaScript,
  the model carries the timestamp alongside the string.
* `Array.prototype.sort` (stable since ES2019) with a comparator `cmp` is
  modelled as the stable sort `jsSort` with `le a b := cmp a b ≤ 0`.
-/

namespace OCR

/-- JavaScript lower-casing, restricted to the alphabet appearing in the
extraction patterns (ASCII plus the accented letters used by the Spanish
pattern literals). -/
def jsToLower (c : Char) : Char :=
  if 'A' ≤ c ∧ c ≤ 'Z' then Char.ofNat (c.toNat + 32)
  else if c = 'Ó' then 'ó'
  else if c = 'Ñ' then 'ñ'
  else if c = 'Ú' then 'ú'
  else c

/-- JavaScript whitespace (`\s`), restricted to the characters that can
matter for this code base. -/
def isJsWs (c : Char) : Bool :=
  c == ' ' || c == '\t' || c == '\n' || c == '\x0b' || c == '\x0c' ||
  c == '\r' || c == ' '

/-- The regex character class `[0-9]`. -/
def isDigitB (c : Char) : Bool := decide ('0' ≤ c) && decide (c ≤ '9')

/-- The regex character class `[.,]` (thousands/decimal separators). -/
def isSepB (c : Char) : Bool := c == '.' || c == ','

/-- The regex character class `[:\s]`. -/
def isColonWs (c : Char) : Bool := c == ':' || isJsWs c

/-- The regex `.` (any character but a line terminator). -/
def isDotAny (c : Char) : Bool :=
  !(c == '\n' || c == '\r' || c == ' ' || c == ' ')

/-- Model of `Math.round`: round half away from zero is `floor (x + 1/2)` for the
non-negative arguments occurring here (JavaScript rounds half up). -/
def jsRound (q : ℚ) : ℤ := ⌊q + 1 / 2⌋

/-- Stable insertion of `x` into `l`: `x` goes before the first element
`y` with `le x y` and after every earlier one. -/
def insertLe (le : α → α → Bool) (x : α) : List α → List α
  | [] => [x]
  | y :: ys => if le x y then x :: y :: ys else y :: insertLe le x ys

/-- Model of `Array.prototype.sort(cmp)` (stable since ES2019), modelled as the
stable insertion sort with respect to `le a b := cmp a b ≤ 0`; for a
consistent comparator every stable sort produces this list. -/
def jsSort (le : α → α → Bool) : List α → List α
  | [] => []
  | x :: xs => insertLe le x (jsSort le xs)

/-- Model of `String.prototype.trim` on character lists. -/
def trimWs (s : List Char) : List Char :=
  ((s.dropWhile isJsWs).reverse.dropWhile isJsWs).reverse

/-- Helper for `collapseWs`: the flag records whether the previous
character was whitespace (and was already emitted as the run's space). -/
def collapseWsGo : Bool → List Char → List Char
  | _, [] => []
  | prevWs, c :: rest =>
    if isJsWs c then
      if prevWs then collapseWsGo true rest
      else ' ' :: collapseWsGo true rest
    else c :: collapseWsGo false rest

/-- Model of `str.replace(/\s+/g, ' ')`: collapse every whitespace run to one space. -/
def collapseWs (s : List Char) : List Char := collapseWsGo false s

/-- Model of `str.split('\n')` on character lists. -/
def splitNl : List Char → List (List Char)
  | [] => [[]]
  | c :: rest =>
    if c = '\n' then [] :: splitNl rest
    else
      match splitNl rest with
      | [] => [[c]]
      | l :: ls => (c :: l) :: ls

/-- Is `tok` a (case-insensitive via `jsToLower`) prefix of `s`? -/
def isPrefixCI : List Char → List Char → Bool
  | [], _ => true
  | _ :: _, [] => false
  | t :: ts, c :: cs => (jsToLower c == jsToLower t) && isPrefixCI ts cs

/-- Model of `(/tok/gi).test(s)`: case-insensitive substring test. -/
def containsCI (tok : List Char) : List Char → Bool
  | [] => isPrefixCI tok []
  | c :: rest => isPrefixCI tok (c :: rest) || containsCI tok rest

/-- Case-sensitive prefix test. -/
def isPrefixCS : List Char → List Char → Bool
  | [], _ => true
  | _ :: _, [] => false
  | t :: ts, c :: cs => (c == t) && isPrefixCS ts cs

/-- Model of `String.prototype.includes` (case-sensitive substring test). -/
def containsCS (tok : List Char) : List Char → Bool
  | [] => isPrefixCS tok []
  | c :: rest => isPrefixCS tok (c :: rest) || containsCS tok rest

/-! ## The regular-expression engine -/

/-- Capture list: group index paired with the captured characters.  The
last entry for an index is the group's final value, as in JavaScript. -/
abbrev Caps := List (Nat × List Char)

/-- Regular expressions as used by the extraction patterns.
`rep r lo hi lazy` is `r{lo,hi}` (`hi = none` meaning unbounded) with
`lazy = true` for the `?` modifier; `grp n r` is capture group `n`;
`eos` is the `$` anchor (no `m` flag). -/
inductive Re where
  | emp : Re
  | cls : (Char → Bool) → Re
  | cat : Re → Re → Re
  | alt : Re → Re → Re
  | rep : Re → Nat → Option Nat → Bool → Re
  | grp : Nat → Re → Re
  | eos : Re

/-- All ways the regex can match a prefix of `s`, as `(suffix, captures)`
pairs in JavaScript backtracking preference order: the head is the match
the JS engine commits to.  `fuel` bounds quantifier unrolling; every
caller supplies more fuel than any pattern in this file can consume
(each unrolled iteration of any quantifier below consumes at least one
character, enforced for `{0,}`-phases by the empty-iteration guard that
JavaScript also applies). -/
def msplits : Nat → Re → List Char → List (List Char × Caps)
  | 0, _, _ => []
  | _ + 1, .emp, s => [(s, [])]
  | _ + 1, .cls _, [] => []
  | _ + 1, .cls p, c :: rest => if p c then [(rest, [])] else []
  | fuel + 1, .cat a b, s =>
    (msplits fuel a s).flatMap fun r1 =>
      (msplits fuel b r1.1).map fun r2 => (r2.1, r1.2 ++ r2.2)
  | fuel + 1, .alt a b, s => msplits fuel a s ++ msplits fuel b s
  | fuel + 1, .grp n r, s =>
    (msplits fuel r s).map fun r1 =>
      (r1.1, r1.2 ++ [(n, s.take (s.length - r1.1.length))])
  | _ + 1, .eos, s => if s.isEmpty then [(s, [])] else []
  | fuel + 1, .rep r lo hi lz, s =>
    if hi = some 0 then [(s, [])]
    else if lo > 0 then
      (msplits fuel r s).flatMap fun r1 =>
        (msplits fuel (.rep r (lo - 1) (hi.map (· - 1)) lz) r1.1).map fun r2 =>
          (r2.1, r1.2 ++ r2.2)
    else
      let deeper :=
        (msplits fuel r s).flatMap fun r1 =>
          if r1.1.length = s.length then []
          else
            (msplits fuel (.rep r 0 (hi.map (· - 1)) lz) r1.1).map fun r2 =>
              (r2.1, r1.2 ++ r2.2)
      if lz then (s, []) :: deeper else deeper ++ [(s, [])]

/-- Fuel budget: generous for every pattern in this file (each quantifier
iteration consumes a character, and nesting depth is small). -/
def fuelFor (s : List Char) : Nat := 2 * s.length + 64

/-- Last-wins capture lookup (`match[n]`). -/
def capLookup (caps : Caps) (n : Nat) : Option (List Char) :=
  (caps.reverse.find? fun p => p.1 == n).map (·.2)

/-- Worker for `scanAll`, structurally recursive on a fuel that bounds
the number of scan positions (each step strictly shortens the input). -/
def scanAllGo : Nat → Re → List Char → List (List Char × Caps)
  | 0, _, _ => []
  | n + 1, r, s =>
    match (msplits (fuelFor s) r s).head? with
    | none =>
      match s with
      | [] => []
      | _ :: rest => scanAllGo n r rest
    | some (rem, caps) =>
      if rem.length < s.length then
        (s.take (s.length - rem.length), caps) :: scanAllGo n r rem
      else
        match s with
        | [] => [(s.take (s.length - rem.length), caps)]
        | _ :: rest => (s.take (s.length - rem.length), caps) :: scanAllGo n r rest

/-- Model of `String.prototype.matchAll` / `match` with the `g` flag: successive
leftmost matches, each as `(matched characters, captures)`; after an
empty match the scan advances by one position, as in JavaScript. -/
def scanAll (r : Re) (s : List Char) : List (List Char × Caps) :=
  scanAllGo (s.length + 1) r s

/-- Model of `text.match(p)` for a global regex `p`: the list of full-match
strings (capture groups are not exposed, so `match[1]` is the second
full match). -/
def jsMatchG (r : Re) (s : List Char) : List (List Char) :=
  (scanAll r s).map (·.1)

/-- For the loops that iterate `matchAll` and read `match[1]` where group
1 spans the whole pattern: the list of group-1 captures. -/
def matchAllG1 (r : Re) (s : List Char) : List (List Char) :=
  (scanAll r s).filterMap fun p => capLookup p.2 1

/-- Worker for `jsSearch`, structurally recursive on a position fuel. -/
def jsSearchGo : Nat → Re → List Char → Option (List Char × Caps)
  | 0, _, _ => none
  | n + 1, r, s =>
    match (msplits (fuelFor s) r s).head? with
    | some (rem, caps) => some (s.take (s.length - rem.length), caps)
    | none =>
      match s with
      | [] => none
      | _ :: rest => jsSearchGo n r rest

/-- Model of `text.match(p)` for a non-global regex `p`: first match with its
captures. -/
def jsSearch (r : Re) (s : List Char) : Option (List Char × Caps) :=
  jsSearchGo (s.length + 1) r s

/-- Case-insensitive literal (a sequence of `charCI` classes). -/
def charCI (c0 : Char) : Re := .cls fun c => jsToLower c == jsToLower c0

def litsCI (cs : List Char) : Re :=
  cs.foldr (fun c r => .cat (charCI c) r) .emp

def litsCS (cs : List Char) : Re :=
  cs.foldr (fun c r => .cat (.cls fun c2 => c2 == c) r) .emp

/-! ## The extraction patterns

Each definition embeds one regex literal of the source, in the order the
source tries them. -/

def digitRe : Re := .cls isDigitB

def sepRe : Re := .cls isSepB

/-- Model of `/([0-9]{1,3}(?:[.,][0-9]{3})*[.,][0-9]{2})/g` — grouped
thousands/decimals form. -/
def numP1 : Re :=
  .grp 1 (.cat (.rep digitRe 1 (some 3) false)
    (.cat (.rep (.cat sepRe (.rep digitRe 3 (some 3) false)) 0 none false)
      (.cat sepRe (.rep digitRe 2 (some 2) false))))

/-- Model of `/([0-9]{3,}[.,][0-9]{2})/g` — plain decimals form (e.g. `44017,00`). -/
def numP2 : Re :=
  .grp 1 (.cat (.rep digitRe 3 none false)
    (.cat sepRe (.rep digitRe 2 (some 2) false)))

/-- Model of `/([0-9]{4,})/g` — bare integers of 4 or more digits. -/
def numP3 : Re := .grp 1 (.rep digitRe 4 none false)

def numberPatterns : List Re := [numP1, numP2, numP3]

/-- Model of `/(\d{1,2}\/\d{1,2}\/\d{4})/g`. -/
def ldP1 : Re :=
  .grp 1 (.cat (.rep digitRe 1 (some 2) false)
    (.cat (.cls fun c => c == '/')
      (.cat (.rep digitRe 1 (some 2) false)
        (.cat (.cls fun c => c == '/') (.rep digitRe 4 (some 4) false)))))

/-- Model of `/(\d{1,2}-\d{1,2}-\d{4})/g`. -/
def ldP2 : Re :=
  .grp 1 (.cat (.rep digitRe 1 (some 2) false)
    (.cat (.cls fun c => c == '-')
      (.cat (.rep digitRe 1 (some 2) false)
        (.cat (.cls fun c => c == '-') (.rep digitRe 4 (some 4) false)))))

/-- Model of `/(\d{1,2}\/\d{1,2}\/\d{2})/g`. -/
def ldP3 : Re :=
  .grp 1 (.cat (.rep digitRe 1 (some 2) false)
    (.cat (.cls fun c => c == '/')
      (.cat (.rep digitRe 1 (some 2) false)
        (.cat (.cls fun c => c == '/') (.rep digitRe 2 (some 2) false)))))

/-- Model of `/(\d{1,2}-\d{1,2}-\d{2})/g`. -/
def ldP4 : Re :=
  .grp 1 (.cat (.rep digitRe 1 (some 2) false)
    (.cat (.cls fun c => c == '-')
      (.cat (.rep digitRe 1 (some 2) false)
        (.cat (.cls fun c => c == '-') (.rep digitRe 2 (some 2) false)))))

def lineDatePatterns : List Re := [ldP1, ldP2, ldP3, ldP4]

/-- Model of `/(\d{1,2})\/(\d{1,2})\/(\d{2,4})/` — parseDate format 1. -/
def pdF1 : Re :=
  .cat (.grp 1 (.rep digitRe 1 (some 2) false))
    (.cat (.cls fun c => c == '/')
      (.cat (.grp 2 (.rep digitRe 1 (some 2) false))
        (.cat (.cls fun c => c == '/') (.grp 3 (.rep digitRe 2 (some 4) false)))))

/-- Model of `/(\d{1,2})-(\d{1,2})-(\d{2,4})/` — parseDate format 2. -/
def pdF2 : Re :=
  .cat (.grp 1 (.rep digitRe 1 (some 2) false))
    (.cat (.cls fun c => c == '-')
      (.cat (.grp 2 (.rep digitRe 1 (some 2) false))
        (.cat (.cls fun c => c == '-') (.grp 3 (.rep digitRe 2 (some 4) false)))))

/-- Model of `/(\d{2,4})-(\d{1,2})-(\d{1,2})/` — parseDate format 3. -/
def pdF3 : Re :=
  .cat (.grp 1 (.rep digitRe 2 (some 4) false))
    (.cat (.cls fun c => c == '-')
      (.cat (.grp 2 (.rep digitRe 1 (some 2) false))
        (.cat (.cls fun c => c == '-') (.grp 3 (.rep digitRe 1 (some 2) false)))))

def parseDateFormats : List Re := [pdF1, pdF2, pdF3]

/-- The shared tail `[:\s]*(.+?)(?:\n|RFC|$)` of the vendor patterns. -/
def vendorTail : Re :=
  .cat (.rep (.cls isColonWs) 0 none false)
    (.cat (.grp 1 (.rep (.cls isDotAny) 1 none true))
      (.alt (.cls fun c => c == '\n') (.alt (litsCI "RFC".data) .eos)))

/-- Model of `/razón\s+social[:\s]*(.+?)(?:\n|RFC|$)/gi`. -/
def vP1 : Re :=
  .cat (litsCI "razón".data)
    (.cat (.rep (.cls isJsWs) 1 none false) (.cat (litsCI "social".data) vendorTail))

/-- Model of `/empresa[:\s]*(.+?)(?:\n|RFC|$)/gi`. -/
def vP2 : Re := .cat (litsCI "empresa".data) vendorTail

/-- Model of `/proveedor[:\s]*(.+?)(?:\n|RFC|$)/gi`. -/
def vP3 : Re := .cat (litsCI "proveedor".data) vendorTail

/-- Model of `/expedido\s+por[:\s]*(.+?)(?:\n|RFC|$)/gi`. -/
def vP4 : Re :=
  .cat (litsCI "expedido".data)
    (.cat (.rep (.cls isJsWs) 1 none false) (.cat (litsCI "por".data) vendorTail))

def vendorPatterns : List Re := [vP1, vP2, vP3, vP4]

/-- Model of `[A-Z&Ñ]` under the `i` flag. -/
def isRfcLetterCI (c : Char) : Bool :=
  (decide ('A' ≤ c) && decide (c ≤ 'Z')) || (decide ('a' ≤ c) && decide (c ≤ 'z')) ||
  c == '&' || c == 'Ñ' || c == 'ñ'

/-- Model of `[A-Z&Ñ]` without the `i` flag. -/
def isRfcLetterCS (c : Char) : Bool :=
  (decide ('A' ≤ c) && decide (c ≤ 'Z')) || c == '&' || c == 'Ñ'

/-- Model of `[A-Z0-9]` under the `i` flag. -/
def isAlnumCI (c : Char) : Bool :=
  (decide ('A' ≤ c) && decide (c ≤ 'Z')) || (decide ('a' ≤ c) && decide (c ≤ 'z')) ||
  isDigitB c

/-- Model of `[A-Z0-9]` without the `i` flag. -/
def isAlnumCS (c : Char) : Bool :=
  (decide ('A' ≤ c) && decide (c ≤ 'Z')) || isDigitB c

/-- Model of `[A-Z0-9\-]` under the `i` flag. -/
def isFolioCharCI (c : Char) : Bool := isAlnumCI c || c == '-'

/-- The RFC shape `([A-Z&Ñ]{3,4}\d{6}[A-Z0-9]{3})`, selectively
case-insensitive. -/
def rfcShape (ci : Bool) : Re :=
  .grp 1 (.cat (.rep (.cls (if ci then isRfcLetterCI else isRfcLetterCS)) 3 (some 4) false)
    (.cat (.rep digitRe 6 (some 6) false)
      (.rep (.cls (if ci then isAlnumCI else isAlnumCS)) 3 (some 3) false)))

/-- Model of `/RFC[:\s]*([A-Z&Ñ]{3,4}\d{6}[A-Z0-9]{3})/gi`. -/
def rfcP1 : Re :=
  .cat (litsCI "RFC".data) (.cat (.rep (.cls isColonWs) 0 none false) (rfcShape true))

/-- Model of `/([A-Z&Ñ]{3,4}\d{6}[A-Z0-9]{3})/g`. -/
def rfcP2 : Re := rfcShape false

def rfcPatterns : List Re := [rfcP1, rfcP2]

/-- Model of `label[:\s]*([A-Z0-9\-]+)` used by the three folio patterns. -/
def folioShape (label : String) : Re :=
  .cat (litsCI label.data)
    (.cat (.rep (.cls isColonWs) 0 none false)
      (.grp 1 (.rep (.cls isFolioCharCI) 1 none false)))

/-- Model of `/folio[:\s]*([A-Z0-9\-]+)/gi`, `/factura[:\s]*([A-Z0-9\-]+)/gi`,
`/número[:\s]*([A-Z0-9\-]+)/gi`. -/
def folioPatterns : List Re :=
  [folioShape "folio", folioShape "factura", folioShape "número"]

/-- Model of `[0-9,]`. -/
def isNumCommaChar (c : Char) : Bool := isDigitB c || c == ','

/-- The captured amount tail `([0-9,]+\.?[0-9]*)`. -/
def numTail : Re :=
  .grp 1 (.cat (.rep (.cls isNumCommaChar) 1 none false)
    (.cat (.rep (.cls fun c => c == '.') 0 (some 1) false) (.rep digitRe 0 none false)))

/-- Model of `label[:\s]*\$?\s*([0-9,]+\.?[0-9]*)` used by the subtotal and iva
patterns. -/
def labeledAmount (label : String) : Re :=
  .cat (litsCI label.data)
    (.cat (.rep (.cls isColonWs) 0 none false)
      (.cat (.rep (.cls fun c => c == '$') 0 (some 1) false)
        (.cat (.rep (.cls isJsWs) 0 none false) numTail)))

/-- Model of `/subtotal[:\s]*\$?\s*([0-9,]+\.?[0-9]*)/gi` and
`/base[:\s]*\$?\s*([0-9,]+\.?[0-9]*)/gi`. -/
def subtotalPatterns : List Re := [labeledAmount "subtotal", labeledAmount "base"]

/-- Model of `/iva[...]/gi`, `/impuesto[...]/gi`, `/16%[...]/gi`. -/
def ivaPatterns : List Re :=
  [labeledAmount "iva", labeledAmount "impuesto", labeledAmount "16%"]

/-! ## Numeric token parsing (`extractNumbersFromLine`) -/

def digitVal (c : Char) : Nat := c.toNat - 48

def natOfDigits (ds : List Char) : Nat :=
  ds.foldl (fun a c => a * 10 + digitVal c) 0

/-- Model of `parseFloat` restricted to the strings this code feeds it (digits and
dots after comma stripping): longest numeric prefix, `none` for `NaN`. -/
def jsParseFloat (s : List Char) : Option ℚ :=
  let intPart := s.takeWhile isDigitB
  let rest := s.dropWhile isDigitB
  match rest with
  | '.' :: rest2 =>
    let frac := rest2.takeWhile isDigitB
    if intPart.isEmpty && frac.isEmpty then none
    else some ((natOfDigits intPart : ℚ) + (natOfDigits frac : ℚ) / (10 : ℚ) ^ frac.length)
  | _ => if intPart.isEmpty then none else some ((natOfDigits intPart : ℚ))

/-- Model of `amountStr.lastIndexOf(',') === amountStr.length - 3`: the char three
from the end is a comma and no comma follows it. -/
def commaAtDecimalPos (s : List Char) : Bool :=
  match s.reverse with
  | a :: b :: c :: _ => c == ',' && !(a == ',') && !(b == ',')
  | _ => false

/-- Model of `amountStr.replace(/,([0-9]{2})$/, '.$1')`. -/
def replaceCommaDec (s : List Char) : List Char :=
  match s.reverse with
  | a :: b :: ',' :: rest =>
    if isDigitB a && isDigitB b then (a :: b :: '.' :: rest).reverse else s
  | _ => s

/-- Model of `str.replace(/,/g, '')`. -/
def stripCommas (s : List Char) : List Char := s.filter fun c => !(c == ',')

/-- The normalisation step of `extractNumbersFromLine`: if the comma sits
in decimal position, turn it into a dot and strip the remaining commas;
otherwise strip all commas. -/
def normalizeAmount (s : List Char) : List Char :=
  if s.contains ',' && commaAtDecimalPos s then stripCommas (replaceCommaDec s)
  else stripCommas s

/-- The loop body of `extractNumbersFromLine`: normalise and parse one
token, keep it if its value lies in `[100, 999999999]` and is not
already present. -/
def numStep (acc : List ℚ) (tok : List Char) : List ℚ :=
  match jsParseFloat (normalizeAmount tok) with
  | none => acc
  | some amount =>
    if 100 ≤ amount ∧ amount ≤ 999999999 then
      if acc.contains amount then acc else acc ++ [amount]
    else acc

/-- Model of `OCRService.extractNumbersFromLine`: run the three number patterns
over the line, normalise and parse each `match[1]`, keep the values in
`[100, 999999999]`, deduplicating identical values. -/
def extractNumbersFromLine (line : List Char) : List ℚ :=
  (numberPatterns.flatMap fun p => matchAllG1 p line).foldl numStep []

/-! ## The amount extractor (`extractAmount`) -/

structure AmtCand where
  value : ℚ
  conf : ℤ
  lineIndex : ℤ
deriving DecidableEq

/-- The sort comparator of `extractAmount`: confidence descending, but
within a 10-point window larger values first. -/
def amountCmp (a b : AmtCand) : ℚ :=
  if 10 < |a.conf - b.conf| then ((b.conf - a.conf : ℤ) : ℚ) else b.value - a.value

def amountLe (a b : AmtCand) : Bool := decide (amountCmp a b ≤ 0)

/-- Model of `/total/gi.test(line)`. -/
def containsTotal (line : List Char) : Bool := containsCI "total".data line

/-- Step 1 of `extractAmount`: every trimmed line containing `total`
(case-insensitive) contributes its numeric tokens at confidence 95. -/
def tier1Amounts (lines : List (List Char)) : List AmtCand :=
  lines.enum.flatMap fun p =>
    let line := trimWs p.2
    if containsTotal line then
      (extractNumbersFromLine line).map fun v => ⟨v, 95, (p.1 : ℤ)⟩
    else []

/-- Step 2: numeric tokens of value at least 1000 from the last 10 lines,
confidence 75 (the recorded index `lines.length - 10 + i` may be
negative, as in the source). -/
def tier2Amounts (lines : List (List Char)) : List AmtCand :=
  (lines.drop (lines.length - 10)).enum.flatMap fun p =>
    let line := trimWs p.2
    (extractNumbersFromLine line).flatMap fun v =>
      if 1000 ≤ v then [⟨v, 75, (lines.length : ℤ) - 10 + (p.1 : ℤ)⟩] else []

/-- Step 3: numeric tokens in `[1000, 999999999]` from every line,
confidence 50. -/
def tier3Amounts (lines : List (List Char)) : List AmtCand :=
  lines.enum.flatMap fun p =>
    let line := trimWs p.2
    (extractNumbersFromLine line).flatMap fun v =>
      if 1000 ≤ v ∧ v ≤ 999999999 then [⟨v, 50, (p.1 : ℤ)⟩] else []

/-- The candidate list `amounts` after the three-step cascade: each later
step runs only if the earlier ones produced nothing. -/
def candidateAmounts (lines : List (List Char)) : List AmtCand :=
  if tier1Amounts lines ≠ [] then tier1Amounts lines
  else if tier2Amounts lines ≠ [] then tier2Amounts lines
  else tier3Amounts lines

/-- Model of `amounts.sort(...)` followed by taking `amounts[0]`. -/
def selectAmount (amounts : List AmtCand) : Option AmtCand :=
  (jsSort amountLe amounts).head?

/-- Model of `OCRService.extractAmount`: split into lines, run the cascade, sort,
return the best `(value, confidence)`. -/
def extractAmount (text : List Char) : Option (ℚ × ℤ) :=
  match selectAmount (candidateAmounts (splitNl text)) with
  | none => none
  | some best => some (best.value, best.conf)

/-! ## Calendar arithmetic (the JavaScript `Date`) -/

/-- Days since 1970-01-01 of the proleptic Gregorian date `(y, m, d)`
with `m` in `1..12` (Howard Hinnant's `days_from_civil`, the arithmetic
JavaScript `Date` uses). -/
def daysFromCivil (y m d : ℤ) : ℤ :=
  let y1 := if m ≤ 2 then y - 1 else y
  let era := y1.fdiv 400
  let yoe := y1 - era * 400
  let doy := (153 * ((m + 9) % 12) + 2).fdiv 5 + d - 1
  let doe := yoe * 365 + yoe.fdiv 4 - yoe.fdiv 100 + doy
  era * 146097 + doe - 719468

/-- Inverse of `daysFromCivil` (`civil_from_days`): the `(y, m, d)` of a
day number. -/
def civilFromDays (z : ℤ) : ℤ × ℤ × ℤ :=
  let z1 := z + 719468
  let era := z1.fdiv 146097
  let doe := z1 - era * 146097
  let yoe := (doe - doe.fdiv 1460 + doe.fdiv 36524 - doe.fdiv 146096).fdiv 365
  let y := yoe + era * 400
  let doy := doe - (365 * yoe + yoe.fdiv 4 - yoe.fdiv 100)
  let mp := (5 * doy + 2).fdiv 153
  let d := doy - (153 * mp + 2).fdiv 5 + 1
  let m := mp + (if mp < 10 then 3 else -9)
  (y + (if m ≤ 2 then 1 else 0), m, d)

/-- Model of `new Date(year, monthIndex, day)` as a day number: the two-digit-year
rule (0..99 become 1900..1999), month rollover, then day offset.  The
clock is taken as UTC. -/
def jsDateDays (year monthIndex day : ℤ) : ℤ :=
  let y0 := if 0 ≤ year ∧ year ≤ 99 then year + 1900 else year
  let y := y0 + monthIndex.fdiv 12
  let m := monthIndex.emod 12 + 1
  daysFromCivil y m 1 + (day - 1)

/-- The number of milliseconds in a day. -/
def msPerDay : ℤ := 86400000

def pad2 (n : ℤ) : String := if n < 10 then "0" ++ toString n else toString n

def pad4 (n : ℤ) : String :=
  if n < 10 then "000" ++ toString n
  else if n < 100 then "00" ++ toString n
  else if n < 1000 then "0" ++ toString n
  else toString n

/-- Model of `date.toISOString().split('T')[0]` of a midnight date given as a day
number. -/
def isoOfDays (z : ℤ) : String :=
  let c := civilFromDays z
  pad4 c.1 ++ "-" ++ pad2 c.2.1 ++ "-" ++ pad2 c.2.2

/-! ## Date parsing (`parseDate`, `extractDatesFromLine`, `extractDate`)

`now : ℤ` is the millisecond timestamp of `new Date()` at call time.  A
parsed date is returned as its ISO string together with its millisecond
timestamp; the source recomputes the timestamp from the string
(`new Date(parsedDate)`), a round-trip that is exact, so the model
carries it. -/

/-- The interpretation of a format's match as a day number: the
ISO branch when `match[0]` has a dash and `match[1]` has four digits,
otherwise day/month/year with the two-digit-year pivot at 50. -/
def pdYmdDays (m0 g1 g2 g3 : List Char) : ℤ :=
  let ymd :=
    if containsCS "-".data m0 && g1.length == 4 then
      ((natOfDigits g1 : ℤ), (natOfDigits g2 : ℤ), (natOfDigits g3 : ℤ))
    else
      let y0 := (natOfDigits g3 : ℤ)
      let y := if y0 < 100 then (if y0 < 50 then y0 + 2000 else y0 + 1900) else y0
      (y, (natOfDigits g2 : ℤ), (natOfDigits g1 : ℤ))
  jsDateDays ymd.1 (ymd.2.1 - 1) ymd.2.2

/-- One loop iteration over `parseDate`'s format list.  A format whose
match fails the `date <= new Date()` check does not return; the loop
moves on to the next format, as in the source. -/
def parseDateGo (now : ℤ) (dateStr : List Char) : List Re → Option (String × ℤ)
  | [] => none
  | fmt :: rest =>
    match jsSearch fmt dateStr with
    | none => parseDateGo now dateStr rest
    | some (m0, caps) =>
      match capLookup caps 1, capLookup caps 2, capLookup caps 3 with
      | some g1, some g2, some g3 =>
        let days := pdYmdDays m0 g1 g2 g3
        let ts := days * msPerDay
        if ts ≤ now then some (isoOfDays days, ts)
        else parseDateGo now dateStr rest
      | _, _, _ => parseDateGo now dateStr rest

/-- Model of `OCRService.parseDate`: try the three formats in order; a date is
returned only when `date <= new Date()`, i.e. `ts ≤ now`. -/
def parseDate (now : ℤ) (dateStr : List Char) : Option (String × ℤ) :=
  parseDateGo now dateStr parseDateFormats

/-- The loop body of `extractDatesFromLine`: parse one token, discard it
if more than 365 days in the future, deduplicate by ISO string. -/
def dateStep (now : ℤ) (acc : List (String × ℤ)) (tok : List Char) :
    List (String × ℤ) :=
  match parseDate now tok with
  | none => acc
  | some (iso, ts) =>
    if ts - now ≤ 365 * msPerDay then
      if acc.any (fun d => d.1 == iso) then acc else acc ++ [(iso, ts)]
    else acc

/-- Model of `OCRService.extractDatesFromLine`: run the four date-token patterns,
parse each token, discard parses more than 365 days in the future,
deduplicate by ISO string. -/
def extractDatesFromLine (now : ℤ) (line : List Char) : List (String × ℤ) :=
  (lineDatePatterns.flatMap fun p => matchAllG1 p line).foldl (dateStep now) []

structure DateCand where
  iso : String
  ts : ℤ
  conf : ℤ
  lineIndex : ℤ
deriving DecidableEq

/-- The sort comparator of `extractDate`: confidence descending, then
within a 10-point window smaller distance to `now` first. -/
def dateCmp (now : ℤ) (a b : DateCand) : ℤ :=
  if 10 < |a.conf - b.conf| then b.conf - a.conf
  else |a.ts - now| - |b.ts - now|

def dateLe (now : ℤ) (a b : DateCand) : Bool := decide (dateCmp now a b ≤ 0)

/-- Model of `/fecha/gi.test(line)`. -/
def containsFecha (line : List Char) : Bool := containsCI "fecha".data line

/-- Step 1 of `extractDate`: dates from trimmed lines containing `fecha`,
confidence 95. -/
def tier1Dates (now : ℤ) (lines : List (List Char)) : List DateCand :=
  lines.enum.flatMap fun p =>
    let line := trimWs p.2
    if containsFecha line then
      (extractDatesFromLine now line).map fun d => ⟨d.1, d.2, 95, (p.1 : ℤ)⟩
    else []

/-- Step 2: dates from the first 15 lines, confidence 75. -/
def tier2Dates (now : ℤ) (lines : List (List Char)) : List DateCand :=
  (lines.take 15).enum.flatMap fun p =>
    let line := trimWs p.2
    (extractDatesFromLine now line).map fun d => ⟨d.1, d.2, 75, (p.1 : ℤ)⟩

/-- Step 3: dates from every line, confidence 50. -/
def tier3Dates (now : ℤ) (lines : List (List Char)) : List DateCand :=
  lines.enum.flatMap fun p =>
    let line := trimWs p.2
    (extractDatesFromLine now line).map fun d => ⟨d.1, d.2, 50, (p.1 : ℤ)⟩

/-- The candidate list `dates` after the three-step cascade. -/
def candidateDates (now : ℤ) (lines : List (List Char)) : List DateCand :=
  if tier1Dates now lines ≠ [] then tier1Dates now lines
  else if tier2Dates now lines ≠ [] then tier2Dates now lines
  else tier3Dates now lines

/-- Model of `dates.sort(...)` followed by taking `dates[0]`. -/
def selectDate (now : ℤ) (dates : List DateCand) : Option DateCand :=
  (jsSort (dateLe now) dates).head?

/-- Model of `OCRService.extractDate`: split into lines, run the cascade, sort,
return the best `(value, confidence)`. -/
def extractDate (now : ℤ) (text : List Char) : Option (String × ℤ) :=
  match selectDate now (candidateDates now (splitNl text)) with
  | none => none
  | some best => some (best.iso, best.conf)

/-! ## Vendor, auxiliary fields, category -/

/-- One loop iteration of `extractVendor`.  The source calls
`text.match(pattern)` on patterns carrying the `g` flag, so `match` is
the array of full-match strings and `match[1]` is the *second full
match*, not the capture group; `match[1]` must also be truthy
(non-empty). -/
def extractVendorGo (text : List Char) : List Re → Option (String × ℤ)
  | [] => none
  | p :: rest =>
    match (jsMatchG p text).get? 1 with
    | some m1 =>
      if m1.isEmpty then extractVendorGo text rest
      else
        let vendor := collapseWs (trimWs m1)
        if 2 < vendor.length ∧ vendor.length < 100 then some (String.mk vendor, 75)
        else extractVendorGo text rest
    | none => extractVendorGo text rest

/-- Model of `OCRService.extractVendor`. -/
def extractVendor (text : List Char) : Option (String × ℤ) :=
  extractVendorGo text vendorPatterns

/-- One loop iteration of `extractWithPatterns`; the same `g`-flag
`match[1]` behaviour as `extractVendor`. -/
def extractWithPatternsGo (text : List Char) : List Re → Option String
  | [] => none
  | p :: rest =>
    match (jsMatchG p text).get? 1 with
    | some m1 =>
      if m1.isEmpty then extractWithPatternsGo text rest
      else some (String.mk (trimWs m1))
    | none => extractWithPatternsGo text rest

/-- Model of `OCRService.extractWithPatterns`. -/
def extractWithPatterns (text : List Char) (patterns : List Re) : Option String :=
  extractWithPatternsGo text patterns

/-- Model of `OCRService.extractNumericValue`: de-commify and `parseFloat` the
first pattern result. -/
def extractNumericValue (text : List Char) (patterns : List Re) : Option ℚ :=
  match extractWithPatterns text patterns with
  | none => none
  | some r =>
    match jsParseFloat (stripCommas r.data) with
    | none => none
    | some v => some v

structure CategoryMapping where
  key : String
  categoria : String
  tipo : String
  keywords : List String

/-- The static vendor-keyword table, in declaration order (`tipo` is
`egreso` on every entry). -/
def vendorCategoryMapping : List CategoryMapping :=
  [⟨"oxxo", "Alimentación", "egreso", ["oxxo", "tienda"]⟩,
   ⟨"walmart", "Compras", "egreso", ["walmart", "supercenter"]⟩,
   ⟨"soriana", "Alimentación", "egreso", ["soriana", "super"]⟩,
   ⟨"chedraui", "Alimentación", "egreso", ["chedraui"]⟩,
   ⟨"pemex", "Transporte", "egreso", ["pemex", "gasolina", "combustible"]⟩,
   ⟨"cfe", "Servicios", "egreso", ["cfe", "comisión federal", "electricidad"]⟩,
   ⟨"telmex", "Servicios", "egreso", ["telmex", "teléfono", "internet"]⟩,
   ⟨"telcel", "Servicios", "egreso", ["telcel", "celular", "móvil"]⟩,
   ⟨"uber", "Transporte", "egreso", ["uber", "viaje"]⟩,
   ⟨"netflix", "Entretenimiento", "egreso", ["netflix", "streaming"]⟩,
   ⟨"spotify", "Entretenimiento", "egreso", ["spotify", "música"]⟩,
   ⟨"farmacias", "Salud", "egreso", ["farmacia", "guadalajara", "benavides", "del ahorro"]⟩,
   ⟨"farmacity", "Salud", "egreso", ["farmacity", "farma"]⟩,
   ⟨"dia", "Alimentación", "egreso", ["dia argentina", "dia", "supermercado dia"]⟩,
   ⟨"carrefour", "Alimentación", "egreso", ["carrefour", "carrefour express"]⟩,
   ⟨"disco", "Alimentación", "egreso", ["disco", "supermercado disco"]⟩,
   ⟨"jumbo", "Alimentación", "egreso", ["jumbo", "supermercado jumbo"]⟩,
   ⟨"restaurante", "Alimentación", "egreso", ["restaurante", "comida", "alimentos"]⟩,
   ⟨"gasolinera", "Transporte", "egreso", ["gasolinera", "gas", "combustible"]⟩]

/-- Model of `OCRService.detectCategory`: first entry (in declaration order) one
of whose keywords is a substring of the lower-cased vendor. -/
def detectCategory (vendor : String) : Option (String × String) :=
  let vendorLower := vendor.data.map jsToLower
  (vendorCategoryMapping.find? fun m =>
      m.keywords.any fun kw => containsCS kw.data vendorLower).map
    fun m => (m.categoria, m.tipo)

/-! ## The pipeline (`extractMovementData`) -/

structure Confidence where
  monto : Option ℤ
  fecha : Option ℤ
  vendor : Option ℤ
  overall : ℤ
deriving DecidableEq

structure ExtractedMovementData where
  monto : Option ℚ
  fecha : Option String
  vendor : Option String
  categoria : Option String
  tipo : Option String
  rfc : Option String
  folio : Option String
  subtotal : Option ℚ
  iva : Option ℚ
  descripcion : Option String
  confidence : Confidence
deriving DecidableEq

/-- Model of `Object.values(confidence).filter(c => c !== undefined)` just before
`overall` is computed (insertion order: monto, fecha, vendor). -/
def confList (a d v : Option ℤ) : List ℤ := a.toList ++ d.toList ++ v.toList

/-- Model of `Math.round(sum / length)` over the present confidences, `0` if none. -/
def overallConf (l : List ℤ) : ℤ :=
  if 0 < l.length then jsRound ((l.sum : ℚ) / (l.length : ℚ)) else 0

/-- Model of `OCRService.extractMovementData`.  `now` is the clock; the text is
whitespace-collapsed and trimmed first, so the line-splitting extractors
see a single line.  `tipo` is assigned from `detectCategory` but then
unconditionally overwritten with `egreso` at the end of the `try` block
(no step of this pipeline can throw). -/
def extractMovementData (now : ℤ) (ocrText : String) : ExtractedMovementData :=
  let cleanText := trimWs (collapseWs ocrText.data)
  let amountResult := extractAmount cleanText
  let dateResult := extractDate now cleanText
  let vendorResult := extractVendor cleanText
  let categoryData :=
    match vendorResult with
    | some (v, _) => detectCategory v
    | none => none
  let rfc := extractWithPatterns cleanText rfcPatterns
  let folio := extractWithPatterns cleanText folioPatterns
  let subtotal := extractNumericValue cleanText subtotalPatterns
  let iva := extractNumericValue cleanText ivaPatterns
  let descripcion :=
    match vendorResult with
    | some (v, _) =>
      some ("Factura - " ++ v ++
        (match folio with
         | some f => " (" ++ f ++ ")"
         | none => ""))
    | none => none
  let overall :=
    overallConf (confList (amountResult.map (·.2)) (dateResult.map (·.2))
      (vendorResult.map (·.2)))
  { monto := amountResult.map (·.1)
    fecha := dateResult.map (·.1)
    vendor := vendorResult.map (·.1)
    categoria := categoryData.map (·.1)
    tipo := some "egreso"
    rfc := rfc
    folio := folio
    subtotal := subtotal
    iva := iva
    descripcion := descripcion
    confidence :=
      { monto := amountResult.map (·.2)
        fecha := dateResult.map (·.2)
        vendor := vendorResult.map (·.2)
        overall := overall } }

/-- The clock used by the concrete date examples: 2026-10-11 UTC,
as a millisecond timestamp. -/
def exampleNow : ℤ := msPerDay * daysFromCivil 2026 10 11

/-! ## Generic lemmas about the model -/

section ClaimProofs

attribute [local semireducible] Rat.add Rat.mul Rat.inv Rat.sub

theorem mem_insertLe {le : α → α → Bool} {x a : α} {l : List α} :
    a ∈ insertLe le x l ↔ a = x ∨ a ∈ l := by
  induction l with
  | nil => simp [insertLe]
  | cons y ys ih =>
    simp only [insertLe]
    split
    · simp
    · simp only [List.mem_cons, ih]
      tauto

theorem mem_jsSort {le : α → α → Bool} {a : α} {l : List α} :
    a ∈ jsSort le l ↔ a ∈ l := by
  induction l with
  | nil => simp [jsSort]
  | cons x xs ih => simp [jsSort, mem_insertLe, ih]

/-- An element of `numStep acc tok` is either old or in range. -/
theorem mem_numStep {acc : List ℚ} {tok : List Char} {u : ℚ}
    (hu : u ∈ numStep acc tok) : u ∈ acc ∨ (100 ≤ u ∧ u ≤ 999999999) := by
  unfold numStep at hu
  revert hu
  cases jsParseFloat (normalizeAmount tok) with
  | none => exact fun hu => Or.inl hu
  | some amount =>
    simp only
    split
    · split
      · exact fun hu => Or.inl hu
      · intro hu
        rcases List.mem_append.1 hu with h1 | h1
        · exact Or.inl h1
        · simp only [List.mem_singleton] at h1
          subst h1
          right
          assumption
    · exact fun hu => Or.inl hu

/-- Everything `extractNumbersFromLine` returns passed the
`100 ≤ amount ≤ 999999999` token-level filter. -/
theorem extractNumbersFromLine_range {line : List Char} {v : ℚ}
    (h : v ∈ extractNumbersFromLine line) : 100 ≤ v ∧ v ≤ 999999999 := by
  unfold extractNumbersFromLine at h
  generalize numberPatterns.flatMap (fun p => matchAllG1 p line) = toks at h
  suffices H : ∀ (toks : List (List Char)) (acc : List ℚ),
      (∀ w ∈ acc, 100 ≤ w ∧ w ≤ 999999999) →
      ∀ w ∈ toks.foldl numStep acc, 100 ≤ w ∧ w ≤ 999999999 by
    exact H toks [] (by simp) v h
  intro toks
  induction toks with
  | nil => intro acc hacc w hw; exact hacc w hw
  | cons t ts ih =>
    intro acc hacc w hw
    rw [List.foldl_cons] at hw
    refine ih _ ?_ w hw
    intro u hu
    rcases mem_numStep hu with h1 | h1
    · exact hacc u h1
    · exact h1

/-- Tier-1 amount candidates carry confidence 95 and an in-range value. -/
theorem mem_tier1Amounts {lines : List (List Char)} {c : AmtCand}
    (h : c ∈ tier1Amounts lines) :
    c.conf = 95 ∧ 100 ≤ c.value ∧ c.value ≤ 999999999 := by
  unfold tier1Amounts at h
  rcases List.mem_flatMap.1 h with ⟨p, _, hc⟩
  simp only at hc
  by_cases hb : containsTotal (trimWs p.2)
  · rw [if_pos hb] at hc
    rcases List.mem_map.1 hc with ⟨v, hv, rfl⟩
    exact ⟨rfl, extractNumbersFromLine_range hv⟩
  · rw [if_neg hb] at hc
    cases hc

/-- Tier-2 amount candidates carry confidence 75 and an in-range value. -/
theorem mem_tier2Amounts {lines : List (List Char)} {c : AmtCand}
    (h : c ∈ tier2Amounts lines) :
    c.conf = 75 ∧ 100 ≤ c.value ∧ c.value ≤ 999999999 := by
  unfold tier2Amounts at h
  rcases List.mem_flatMap.1 h with ⟨p, _, hc⟩
  simp only at hc
  rcases List.mem_flatMap.1 hc with ⟨v, hv, hc2⟩
  by_cases hb : (1000 : ℚ) ≤ v
  · rw [if_pos hb] at hc2
    simp only [List.mem_singleton] at hc2
    subst hc2
    exact ⟨rfl, extractNumbersFromLine_range hv⟩
  · rw [if_neg hb] at hc2
    cases hc2

/-- Tier-3 amount candidates carry confidence 50 and an in-range value. -/
theorem mem_tier3Amounts {lines : List (List Char)} {c : AmtCand}
    (h : c ∈ tier3Amounts lines) :
    c.conf = 50 ∧ 100 ≤ c.value ∧ c.value ≤ 999999999 := by
  unfold tier3Amounts at h
  rcases List.mem_flatMap.1 h with ⟨p, _, hc⟩
  simp only at hc
  rcases List.mem_flatMap.1 hc with ⟨v, hv, hc2⟩
  by_cases hb : (1000 : ℚ) ≤ v ∧ v ≤ 999999999
  · rw [if_pos hb] at hc2
    simp only [List.mem_singleton] at hc2
    subst hc2
    exact ⟨rfl, extractNumbersFromLine_range hv⟩
  · rw [if_neg hb] at hc2
    cases hc2

/-- Every candidate of the amount cascade has one of the three tier
confidences and an in-range value. -/
theorem mem_candidateAmounts {lines : List (List Char)} {c : AmtCand}
    (h : c ∈ candidateAmounts lines) :
    (c.conf = 95 ∨ c.conf = 75 ∨ c.conf = 50) ∧
      100 ≤ c.value ∧ c.value ≤ 999999999 := by
  unfold candidateAmounts at h
  split at h
  · rcases mem_tier1Amounts h with ⟨h1, h2⟩
    exact ⟨Or.inl h1, h2⟩
  · split at h
    · rcases mem_tier2Amounts h with ⟨h1, h2⟩
      exact ⟨Or.inr (Or.inl h1), h2⟩
    · rcases mem_tier3Amounts h with ⟨h1, h2⟩
      exact ⟨Or.inr (Or.inr h1), h2⟩

/-- A successful `extractAmount` returns the value and confidence of one
of the cascade's candidates. -/
theorem extractAmount_eq_some {text : List Char} {v : ℚ} {k : ℤ}
    (h : extractAmount text = some (v, k)) :
    ∃ c ∈ candidateAmounts (splitNl text), c.value = v ∧ c.conf = k := by
  unfold extractAmount selectAmount at h
  cases hh : (jsSort amountLe (candidateAmounts (splitNl text))).head? with
  | none => rw [hh] at h; cases h
  | some best =>
    rw [hh] at h
    simp only [Option.some.injEq, Prod.mk.injEq] at h
    refine ⟨best, mem_jsSort.1 (List.mem_of_mem_head? (Option.mem_def.2 hh)), h.1, h.2⟩

/-- Model of `parseDateGo` only succeeds with a timestamp on or before `now`
(the `date <= new Date()` check inside `parseDate`). -/
theorem parseDateGo_le {now : ℤ} {ds : List Char} {iso : String} {ts : ℤ} :
    ∀ fmts, parseDateGo now ds fmts = some (iso, ts) → ts ≤ now := by
  intro fmts
  induction fmts with
  | nil => intro h; cases h
  | cons fmt rest ih =>
    intro h
    unfold parseDateGo at h
    revert h
    cases jsSearch fmt ds with
    | none => exact ih
    | some mc =>
      obtain ⟨m0, caps⟩ := mc
      simp only
      cases capLookup caps 1 with
      | none => cases capLookup caps 2 <;> cases capLookup caps 3 <;> exact ih
      | some g1 =>
        cases capLookup caps 2 with
        | none => cases capLookup caps 3 <;> exact ih
        | some g2 =>
          cases capLookup caps 3 with
          | none => exact ih
          | some g3 =>
            simp only
            split
            · intro h
              simp only [Option.some.injEq, Prod.mk.injEq] at h
              rcases h with ⟨-, rfl⟩
              assumption
            · exact ih

/-- Model of `parseDate` only succeeds with a timestamp on or before `now`. -/
theorem parseDate_le {now : ℤ} {ds : List Char} {iso : String} {ts : ℤ}
    (h : parseDate now ds = some (iso, ts)) : ts ≤ now :=
  parseDateGo_le _ h

/-- An element of `dateStep now acc tok` is either old or dated on or
before `now`. -/
theorem mem_dateStep {now : ℤ} {acc : List (String × ℤ)} {tok : List Char}
    {u : String × ℤ} (hu : u ∈ dateStep now acc tok) :
    u ∈ acc ∨ u.2 ≤ now := by
  unfold dateStep at hu
  revert hu
  cases hp : parseDate now tok with
  | none => exact fun hu => Or.inl hu
  | some r =>
    obtain ⟨iso, ts⟩ := r
    simp only
    split
    · split
      · exact fun hu => Or.inl hu
      · intro hu
        rcases List.mem_append.1 hu with h1 | h1
        · exact Or.inl h1
        · simp only [List.mem_singleton] at h1
          subst h1
          exact Or.inr (parseDate_le hp)
    · exact fun hu => Or.inl hu

/-- Every date candidate a line produces is on or before `now`: the
parse-time `date <= new Date()` check already removed all future dates. -/
theorem extractDatesFromLine_le {now : ℤ} {line : List Char} {u : String × ℤ}
    (h : u ∈ extractDatesFromLine now line) : u.2 ≤ now := by
  unfold extractDatesFromLine at h
  generalize lineDatePatterns.flatMap (fun p => matchAllG1 p line) = toks at h
  suffices H : ∀ (toks : List (List Char)) (acc : List (String × ℤ)),
      (∀ w ∈ acc, w.2 ≤ now) → ∀ w ∈ toks.foldl (dateStep now) acc, w.2 ≤ now by
    exact H toks [] (by simp) u h
  intro toks
  induction toks with
  | nil => intro acc hacc w hw; exact hacc w hw
  | cons t ts ih =>
    intro acc hacc w hw
    rw [List.foldl_cons] at hw
    refine ih _ ?_ w hw
    intro x hx
    rcases mem_dateStep hx with h1 | h1
    · exact hacc x h1
    · exact h1

/-- Tier-1 date candidates carry confidence 95. -/
theorem mem_tier1Dates {now : ℤ} {lines : List (List Char)} {c : DateCand}
    (h : c ∈ tier1Dates now lines) : c.conf = 95 := by
  unfold tier1Dates at h
  rcases List.mem_flatMap.1 h with ⟨p, _, hc⟩
  simp only at hc
  by_cases hb : containsFecha (trimWs p.2)
  · rw [if_pos hb] at hc
    rcases List.mem_map.1 hc with ⟨d, _, rfl⟩
    rfl
  · rw [if_neg hb] at hc
    cases hc

/-- Tier-2 date candidates carry confidence 75. -/
theorem mem_tier2Dates {now : ℤ} {lines : List (List Char)} {c : DateCand}
    (h : c ∈ tier2Dates now lines) : c.conf = 75 := by
  unfold tier2Dates at h
  rcases List.mem_flatMap.1 h with ⟨p, _, hc⟩
  simp only at hc
  rcases List.mem_map.1 hc with ⟨d, _, rfl⟩
  rfl

/-- Tier-3 date candidates carry confidence 50. -/
theorem mem_tier3Dates {now : ℤ} {lines : List (List Char)} {c : DateCand}
    (h : c ∈ tier3Dates now lines) : c.conf = 50 := by
  unfold tier3Dates at h
  rcases List.mem_flatMap.1 h with ⟨p, _, hc⟩
  simp only at hc
  rcases List.mem_map.1 hc with ⟨d, _, rfl⟩
  rfl

/-- Every candidate of the date cascade has one of the three tier
confidences. -/
theorem mem_candidateDates {now : ℤ} {lines : List (List Char)} {c : DateCand}
    (h : c ∈ candidateDates now lines) :
    c.conf = 95 ∨ c.conf = 75 ∨ c.conf = 50 := by
  unfold candidateDates at h
  split at h
  · exact Or.inl (mem_tier1Dates h)
  · split at h
    · exact Or.inr (Or.inl (mem_tier2Dates h))
    · exact Or.inr (Or.inr (mem_tier3Dates h))

/-- A successful `extractDate` returns the value and confidence of one of
the cascade's candidates. -/
theorem extractDate_eq_some {now : ℤ} {text : List Char} {v : String} {k : ℤ}
    (h : extractDate now text = some (v, k)) :
    ∃ c ∈ candidateDates now (splitNl text), c.iso = v ∧ c.conf = k := by
  unfold extractDate selectDate at h
  cases hh : (jsSort (dateLe now) (candidateDates now (splitNl text))).head? with
  | none => rw [hh] at h; cases h
  | some best =>
    rw [hh] at h
    simp only [Option.some.injEq, Prod.mk.injEq] at h
    refine ⟨best, mem_jsSort.1 (List.mem_of_mem_head? (Option.mem_def.2 hh)), h.1, h.2⟩

/-- Model of `extractVendor` always attaches confidence 75. -/
theorem extractVendorGo_conf {text : List Char} {v : String} {k : ℤ} :
    ∀ ps, extractVendorGo text ps = some (v, k) → k = 75 := by
  intro ps
  induction ps with
  | nil => intro h; cases h
  | cons p rest ih =>
    intro h
    unfold extractVendorGo at h
    revert h
    cases (jsMatchG p text).get? 1 with
    | none => exact ih
    | some m1 =>
      simp only
      split
      · exact ih
      · split
        · intro h
          simp only [Option.some.injEq, Prod.mk.injEq] at h
          omega
        · exact ih

/-- If every confidence is in `[0, 100]`, so is the aggregated rounded
mean (and the empty aggregate is 0). -/
theorem overallConf_bounds {l : List ℤ} (h : ∀ x ∈ l, 0 ≤ x ∧ x ≤ 100) :
    0 ≤ overallConf l ∧ overallConf l ≤ 100 := by
  unfold overallConf
  split
  case isTrue hl =>
    have hlen : (0 : ℚ) < (l.length : ℚ) := by exact_mod_cast hl
    have hsum0 : (0 : ℤ) ≤ l.sum := List.sum_nonneg fun x hx => (h x hx).1
    have hsum1 : l.sum ≤ 100 * l.length := by
      have := List.sum_le_card_nsmul l 100 fun x hx => (h x hx).2
      simpa [nsmul_eq_mul, mul_comm] using this
    have hq0 : (0 : ℚ) ≤ (l.sum : ℚ) / (l.length : ℚ) :=
      div_nonneg (by exact_mod_cast hsum0) (le_of_lt hlen)
    have hq1 : (l.sum : ℚ) / (l.length : ℚ) ≤ 100 := by
      rw [div_le_iff₀ hlen]
      exact_mod_cast hsum1
    constructor
    · unfold jsRound
      have : (0 : ℚ) ≤ (l.sum : ℚ) / (l.length : ℚ) + 1 / 2 := by linarith
      exact_mod_cast Int.le_floor.2 (by exact_mod_cast this)
    · unfold jsRound
      have : (l.sum : ℚ) / (l.length : ℚ) + 1 / 2 < 101 := by linarith
      have hf := Int.floor_lt.2 (by exact_mod_cast this :
        (l.sum : ℚ) / (l.length : ℚ) + 1 / 2 < ((101 : ℤ) : ℚ))
      omega
  case isFalse => exact ⟨le_refl 0, by norm_num⟩

/-- A successful `extractAmount` carries a tier confidence. -/
theorem extractAmount_conf {text : List Char} {v : ℚ} {k : ℤ}
    (h : extractAmount text = some (v, k)) : k = 95 ∨ k = 75 ∨ k = 50 := by
  obtain ⟨c, hc, -, rfl⟩ := extractAmount_eq_some h
  exact (mem_candidateAmounts hc).1

/-- A successful `extractDate` carries a tier confidence. -/
theorem extractDate_conf {now : ℤ} {text : List Char} {v : String} {k : ℤ}
    (h : extractDate now text = some (v, k)) : k = 95 ∨ k = 75 ∨ k = 50 := by
  obtain ⟨c, hc, -, rfl⟩ := extractDate_eq_some h
  exact mem_candidateDates hc

/-- A successful `extractVendor` carries confidence 75. -/
theorem extractVendor_conf {text : List Char} {v : String} {k : ℤ}
    (h : extractVendor text = some (v, k)) : k = 75 :=
  extractVendorGo_conf _ h

set_option maxHeartbeats 1000000 in
/-- The `overall` field of the pipeline output, unfolded. -/
theorem extractMovementData_overall (now : ℤ) (s : String) :
    (extractMovementData now s).confidence.overall =
      overallConf (confList
        ((extractAmount (trimWs (collapseWs s.data))).map (·.2))
        ((extractDate now (trimWs (collapseWs s.data))).map (·.2))
        ((extractVendor (trimWs (collapseWs s.data))).map (·.2))) := rfl

/-! ## The claims -/

/-- C1: the extraction pipeline is total — for every clock and every
input string it returns a record (the embedding is a total function, no
exception path exists) whose `confidence.overall` lies in `[0, 100]`;
and on the empty string every optional field (amount, date, vendor,
category, description, tax-ID, folio, subtotal, tax) is absent and
`confidence.overall = 0`. -/
theorem pipeline_total_empty_and_overall_bounds :
    (∀ now : ℤ, extractMovementData now "" =
      { monto := none, fecha := none, vendor := none, categoria := none,
        tipo := some "egreso", rfc := none, folio := none, subtotal := none,
        iva := none, descripcion := none,
        confidence := { monto := none, fecha := none, vendor := none, overall := 0 } })
    ∧ ∀ (now : ℤ) (s : String),
        0 ≤ (extractMovementData now s).confidence.overall ∧
          (extractMovementData now s).confidence.overall ≤ 100 := by
  constructor
  · intro now
    rfl
  · intro now s
    rw [extractMovementData_overall]
    apply overallConf_bounds
    intro x hx
    unfold confList at hx
    rcases List.mem_append.1 hx with hx1 | hx1
    · rcases List.mem_append.1 hx1 with hx2 | hx2
      · rw [Option.mem_toList] at hx2
        rcases Option.map_eq_some'.1 hx2 with ⟨⟨v, k⟩, ha, rfl⟩
        rcases extractAmount_conf ha with rfl | rfl | rfl <;> norm_num
      · rw [Option.mem_toList] at hx2
        rcases Option.map_eq_some'.1 hx2 with ⟨⟨v, k⟩, ha, rfl⟩
        rcases extractDate_conf ha with rfl | rfl | rfl <;> norm_num
    · rw [Option.mem_toList] at hx1
      rcases Option.map_eq_some'.1 hx1 with ⟨⟨v, k⟩, ha, rfl⟩
      rw [extractVendor_conf ha]
      norm_num

/-- C2: the returned record's `tipo` is unconditionally `egreso`
("expense"): the pipeline overwrites whatever the vendor/category cascade
produced just before returning. -/
theorem tipo_always_egreso (now : ℤ) (s : String) :
    (extractMovementData now s).tipo = some "egreso" := rfl

/-- C5 (amended): no date candidate is ever in the future.  `parseDate`
itself only returns dates with `ts ≤ now` (its `date <= new Date()`
check), so a date 1–365 days ahead is *not* accepted, and the 365-day
future filter (`ts - now ≤ 365 days`) never discards a parsed date. -/
theorem dateCandidates_never_future (now : ℤ) (line : List Char)
    (d : String × ℤ) (h : d ∈ extractDatesFromLine now line) :
    d.2 ≤ now ∧ d.2 - now ≤ 365 * msPerDay := by
  have h1 := extractDatesFromLine_le h
  refine ⟨h1, ?_⟩
  have : (0 : ℤ) ≤ 365 * msPerDay := by unfold msPerDay; norm_num
  omega

/-- C5 witness: a past date (2020-01-01 under the 2026-10-11 clock) is a
candidate and satisfies both filter bounds. -/
theorem dateCandidates_never_future_witness :
    ("2020-01-01", (1577836800000 : ℤ)) ∈
        extractDatesFromLine exampleNow ("01/01/2020".data) ∧
      (1577836800000 : ℤ) ≤ exampleNow ∧
      (1577836800000 : ℤ) - exampleNow ≤ 365 * msPerDay := by
  refine ⟨by decide, ?_, ?_⟩
  · exact (dateCandidates_never_future exampleNow ("01/01/2020".data)
      ("2020-01-01", (1577836800000 : ℤ)) (by decide)).1
  · exact (dateCandidates_never_future exampleNow ("01/01/2020".data)
      ("2020-01-01", (1577836800000 : ℤ)) (by decide)).2

/-- C5 counterexample: under the clock 2026-10-11, the well-formed date
`15/10/2026` lies 4 days in the future (within 1..365), yet it is *not*
accepted as a candidate — the line instead yields `2020-10-15`, because
the full match is rejected by `parseDate`'s past-only check and the
`DD/MM/YY` pattern then matches the truncated `15/10/20`. -/
theorem futureDate_not_accepted_counterexample :
    (extractDatesFromLine exampleNow ("15/10/2026".data)).map Prod.fst =
        ["2020-10-15"] ∧
      "2026-10-15" ∉
        (extractDatesFromLine exampleNow ("15/10/2026".data)).map Prod.fst := by
  exact ⟨by decide, by decide⟩

/-- C4 (code bug witness): `extractVendor` calls `text.match(pattern)`
with `g`-flagged regexes, so `match[1]` is the second full match rather
than the capture group; for `"Empresa: OXXO"` (a single match) it is
`undefined` and no vendor is extracted at all — the pipeline returns no
vendor, no category and no vendor confidence, even though the keyword
table does map `OXXO` to its food category. -/
theorem vendor_gflag_bug :
    extractVendor ("Empresa: OXXO".data) = none ∧
      (∀ now : ℤ,
        (extractMovementData now "Empresa: OXXO").vendor = none ∧
          (extractMovementData now "Empresa: OXXO").categoria = none ∧
          (extractMovementData now "Empresa: OXXO").confidence.vendor = none) ∧
      detectCategory "OXXO" = some ("Alimentación", "egreso") :=
  ⟨by decide, fun _ => ⟨rfl, rfl, rfl⟩, by decide⟩

/-- C6 (code bug witness): the European grouped token `1.234,56` does not
parse to 1234.56.  The comma-decimal rule rewrites it to `1.234.56` but
leaves the dot thousands separator, so `parseFloat` stops at the second
dot and yields 1.234, which the `≥ 100` filter drops; the only surviving
candidate is the sub-token `234,56`, i.e. the value 234.56. -/
theorem european_grouped_misparse :
    extractNumbersFromLine ("1.234,56".data) = [(23456 / 100 : ℚ)] ∧
      (123456 / 100 : ℚ) ∉ extractNumbersFromLine ("1.234,56".data) := by
  exact ⟨by decide, by decide⟩

/-- C7 counterexample: the bare integer `500` has value in
`[100, 999999999]` but only three digits, and the bare-integer pattern
requires four (`/([0-9]{4,})/`), so the line yields no candidate. -/
theorem bare_integer_three_digits_counterexample :
    extractNumbersFromLine ("500".data) = [] ∧
      (500 : ℚ) ∉ extractNumbersFromLine ("500".data) := by
  exact ⟨by decide, by decide⟩

/-- C8 counterexample: a line consisting of the valid past ISO date
`2024-03-15` does not produce that date.  No line pattern matches the
ISO form; the `DD-MM-YY` pattern matches the substring `24-03-15`, and
`parseDate`'s `DD-MM-YY` format turns it into 2015-03-24. -/
theorem iso_date_misparse_counterexample :
    (extractDatesFromLine exampleNow ("2024-03-15".data)).map Prod.fst =
        ["2015-03-24"] ∧
      "2024-03-15" ∉
        (extractDatesFromLine exampleNow ("2024-03-15".data)).map Prod.fst := by
  exact ⟨by decide, by decide⟩

/-- C9: the amount comparator sorts by confidence descending, except that
within a 10-point confidence window the larger value wins; in particular
on the two candidates (conf 95, value 500) and (conf 90, value 800) the
selection returns the 800 candidate. -/
theorem amount_sort_value_tiebreak :
    (∀ a b : AmtCand, |a.conf - b.conf| ≤ 10 →
        (amountCmp a b ≤ 0 ↔ b.value ≤ a.value)) ∧
      (∀ a b : AmtCand, 10 < |a.conf - b.conf| →
        (amountCmp a b ≤ 0 ↔ b.conf ≤ a.conf)) ∧
      selectAmount [⟨500, 95, 0⟩, ⟨800, 90, 1⟩] = some ⟨800, 90, 1⟩ := by
  refine ⟨?_, ?_, by decide⟩
  · intro a b hab
    unfold amountCmp
    rw [if_neg (by omega : ¬ 10 < |a.conf - b.conf|)]
    exact sub_nonpos
  · intro a b hab
    unfold amountCmp
    rw [if_pos hab]
    constructor
    · intro h
      have : (b.conf - a.conf : ℤ) ≤ 0 := by exact_mod_cast h
      omega
    · intro h
      have : (b.conf - a.conf : ℤ) ≤ 0 := by omega
      exact_mod_cast this

/-- C9 witness: the two Scenario-F candidates are inside the 10-point
window, and the comparator prefers the larger value. -/
theorem amount_sort_value_tiebreak_witness :
    |(⟨500, 95, 0⟩ : AmtCand).conf - (⟨800, 90, 1⟩ : AmtCand).conf| ≤ 10 ∧
      (amountCmp ⟨500, 95, 0⟩ ⟨800, 90, 1⟩ ≤ 0 ↔
        (⟨800, 90, 1⟩ : AmtCand).value ≤ (⟨500, 95, 0⟩ : AmtCand).value) :=
  ⟨by decide, amount_sort_value_tiebreak.1 ⟨500, 95, 0⟩ ⟨800, 90, 1⟩ (by decide)⟩

/-- C10: whenever the pipeline reports an amount, it lies in
`[100, 999999999]` — every numeric token is range-checked at parse time,
so no total below 100 currency units can ever be extracted. -/
theorem monto_range (now : ℤ) (s : String) (v : ℚ)
    (h : (extractMovementData now s).monto = some v) :
    100 ≤ v ∧ v ≤ 999999999 := by
  have hm : (extractMovementData now s).monto =
      (extractAmount (trimWs (collapseWs s.data))).map (·.1) := rfl
  rw [hm] at h
  rcases Option.map_eq_some'.1 h with ⟨⟨v2, k⟩, ha, hv⟩
  simp only at hv
  subst hv
  obtain ⟨c, hc, rfl, -⟩ := extractAmount_eq_some ha
  exact (mem_candidateAmounts hc).2

/-- C10 witness: `"total 1000"` yields an amount, and it is in range. -/
theorem monto_range_witness :
    (extractMovementData exampleNow "total 1000").monto = some 1000 ∧
      100 ≤ (1000 : ℚ) ∧ (1000 : ℚ) ≤ 999999999 :=
  ⟨by decide, monto_range exampleNow "total 1000" 1000 (by decide)⟩

/-- C3: the labeled tier of the amount extractor works on the input split
at line breaks with each line trimmed: a value is a tier-1 candidate for
line `i` exactly when line `i` itself matches the case-insensitive
`total` test and the trimmed line's token scan yields that value; and
every tier-1 candidate carries confidence 95, so lines without the
keyword contribute nothing to tier 1 even when another line has it. -/
theorem tier1_labeled_characterization (text : List Char) :
    (∀ (v : ℚ) (i : ℕ),
      ((⟨v, 95, (i : ℤ)⟩ : AmtCand) ∈ tier1Amounts (splitNl text) ↔
        ∃ l, (splitNl text)[i]? = some l ∧ containsTotal (trimWs l) = true ∧
          v ∈ extractNumbersFromLine (trimWs l)))
    ∧ ∀ c ∈ tier1Amounts (splitNl text), c.conf = 95 := by
  constructor
  · intro v i
    constructor
    · intro h
      unfold tier1Amounts at h
      rcases List.mem_flatMap.1 h with ⟨⟨j, l⟩, hjl, hc⟩
      simp only at hc
      by_cases hb : containsTotal (trimWs l)
      · rw [if_pos hb] at hc
        rcases List.mem_map.1 hc with ⟨w, hw, heq⟩
        simp only [AmtCand.mk.injEq] at heq
        obtain ⟨rfl, -, hji⟩ := heq
        have hj : j = i := by exact_mod_cast hji
        subst hj
        exact ⟨l, List.mk_mem_enum_iff_getElem?.1 hjl, hb, hw⟩
      · rw [if_neg hb] at hc
        cases hc
    · rintro ⟨l, hl, hb, hv⟩
      unfold tier1Amounts
      apply List.mem_flatMap.2
      refine ⟨(i, l), List.mk_mem_enum_iff_getElem?.2 hl, ?_⟩
      simp only
      rw [if_pos hb]
      exact List.mem_map.2 ⟨v, hv, rfl⟩
  · intro c hc
    exact (mem_tier1Amounts hc).1

/-- C3 witness: on the single line `total 1000`, the value 1000 is a
tier-1 candidate at index 0 and carries confidence 95. -/
theorem tier1_labeled_characterization_witness :
    ((⟨1000, 95, (0 : ℤ)⟩ : AmtCand) ∈ tier1Amounts (splitNl ("total 1000".data))) ∧
      (⟨1000, 95, (0 : ℤ)⟩ : AmtCand).conf = 95 :=
  ⟨by decide, (tier1_labeled_characterization ("total 1000".data)).2 _ (by decide)⟩

/-- A format with no match in `dateStr` passes the loop on. -/
theorem parseDateGo_cons_none {now : ℤ} {dateStr : List Char} {fmt : Re}
    {rest : List Re} (hs : jsSearch fmt dateStr = none) :
    parseDateGo now dateStr (fmt :: rest) = parseDateGo now dateStr rest := by
  conv_lhs => rw [parseDateGo]
  rw [hs]

/-- A format whose match interprets to a day number on or before `now`
returns that date. -/
theorem parseDateGo_cons_found (now : ℤ) (dateStr : List Char) (fmt : Re)
    (rest : List Re) (m0 : List Char) (caps : Caps) (g1 g2 g3 : List Char)
    (hs : jsSearch fmt dateStr = some (m0, caps))
    (h1 : capLookup caps 1 = some g1) (h2 : capLookup caps 2 = some g2)
    (h3 : capLookup caps 3 = some g3)
    (hle : pdYmdDays m0 g1 g2 g3 * msPerDay ≤ now) :
    parseDateGo now dateStr (fmt :: rest) =
      some (isoOfDays (pdYmdDays m0 g1 g2 g3), pdYmdDays m0 g1 g2 g3 * msPerDay) := by
  conv_lhs => rw [parseDateGo]
  rw [hs]
  simp only [h1, h2, h3]
  rw [if_pos hle]

/-- C8 (amended): the date extractor does not accept the ISO form.  For
any clock on or after 2015-03-24, the line `2024-03-15` — a valid past
calendar date — is tokenised only through the `DD-MM-YY` pattern as
`24-03-15`, and `parseDate`'s `DD-MM-YY` format (tried before the ISO
format, whose branch is unreachable from the line patterns) turns it
into day 24, month 03, year 2015: the produced candidate is
`2015-03-24`, not `2024-03-15`. -/
theorem iso_date_misparsed (now : ℤ) (h : (1427155200000 : ℤ) ≤ now) :
    parseDate now ("2024-03-15".data) = some ("2015-03-24", 1427155200000) ∧
      (extractDatesFromLine now ("2024-03-15".data)).map Prod.fst =
        ["2015-03-24"] := by
  have hd : pdYmdDays ("24-03-15".data) ("24".data) ("03".data) ("15".data) =
      16518 := by decide
  have hts : (16518 : ℤ) * msPerDay = 1427155200000 := by decide
  have hiso : isoOfDays 16518 = "2015-03-24" := by decide
  have hp : parseDate now ("24-03-15".data) =
      some ("2015-03-24", 1427155200000) := by
    unfold parseDate parseDateFormats
    rw [parseDateGo_cons_none (by decide),
      parseDateGo_cons_found now ("24-03-15".data) pdF2 [pdF3] ("24-03-15".data)
        [(1, "24".data), (2, "03".data), (3, "15".data)] ("24".data) ("03".data)
        ("15".data) (by decide) (by decide) (by decide) (by decide)
        (by rw [hd, hts]; exact h), hd, hts, hiso]
  constructor
  · unfold parseDate parseDateFormats
    rw [parseDateGo_cons_none (by decide),
      parseDateGo_cons_found now ("2024-03-15".data) pdF2 [pdF3] ("24-03-15".data)
        [(1, "24".data), (2, "03".data), (3, "15".data)] ("24".data) ("03".data)
        ("15".data) (by decide) (by decide) (by decide) (by decide)
        (by rw [hd, hts]; exact h), hd, hts, hiso]
  · unfold extractDatesFromLine
    rw [show lineDatePatterns.flatMap
        (fun p => matchAllG1 p ("2024-03-15".data)) = [("24-03-15".data)] from by decide]
    rw [List.foldl_cons, List.foldl_nil]
    unfold dateStep
    rw [hp]
    simp only
    rw [if_pos (by unfold msPerDay; omega : (1427155200000 : ℤ) - now ≤ 365 * msPerDay)]
    simp

/-- C8 amended-theorem witness at the example clock. -/
theorem iso_date_misparsed_witness :
    (1427155200000 : ℤ) ≤ exampleNow ∧
      parseDate exampleNow ("2024-03-15".data) =
        some ("2015-03-24", 1427155200000) :=
  ⟨by decide, (iso_date_misparsed exampleNow (by decide)).1⟩

/-! ## Engine lemmas on all-digit lines (for C7) -/

/-- A string whose characters are all `[0-9]`. -/
def AllDigit (s : List Char) : Prop := ∀ c ∈ s, isDigitB c = true

/-- The matcher only ever drops characters from the front: every
remaining-input it returns is a suffix of the input. -/
theorem msplits_suffix :
    ∀ (fuel : Nat) (r : Re) (s : List Char) (p : List Char × Caps),
      p ∈ msplits fuel r s → p.1 <:+ s := by
  intro fuel
  induction fuel with
  | zero => intro r s p h; cases h
  | succ fuel ih =>
    intro r s p h
    cases r with
    | emp =>
      simp only [msplits, List.mem_singleton] at h
      subst h
      exact List.suffix_refl s
    | cls q =>
      cases s with
      | nil => cases h
      | cons c rest =>
        simp only [msplits] at h
        split at h
        · simp only [List.mem_singleton] at h
          subst h
          exact List.suffix_cons c rest
        · cases h
    | cat a b =>
      simp only [msplits] at h
      rcases List.mem_flatMap.1 h with ⟨r1, hr1, hp⟩
      rcases List.mem_map.1 hp with ⟨r2, hr2, rfl⟩
      exact (ih b r1.1 r2 hr2).trans (ih a s r1 hr1)
    | alt a b =>
      simp only [msplits, List.mem_append] at h
      rcases h with h | h
      · exact ih a s p h
      · exact ih b s p h
    | rep r0 lo hi lz =>
      simp only [msplits] at h
      split at h
      · simp only [List.mem_singleton] at h
        subst h
        exact List.suffix_refl s
      · split at h
        · rcases List.mem_flatMap.1 h with ⟨r1, hr1, hp⟩
          rcases List.mem_map.1 hp with ⟨r2, hr2, rfl⟩
          exact (ih _ r1.1 r2 hr2).trans (ih r0 s r1 hr1)
        · have deeperCase :
              ∀ q ∈ (msplits fuel r0 s).flatMap fun r1 =>
                if r1.1.length = s.length then []
                else
                  (msplits fuel (.rep r0 0 (hi.map (· - 1)) lz) r1.1).map fun r2 =>
                    (r2.1, r1.2 ++ r2.2),
              q.1 <:+ s := by
            intro q hq
            rcases List.mem_flatMap.1 hq with ⟨r1, hr1, hp2⟩
            split at hp2
            · cases hp2
            · rcases List.mem_map.1 hp2 with ⟨r2, hr2, rfl⟩
              exact (ih _ r1.1 r2 hr2).trans (ih r0 s r1 hr1)
          split at h
          · rcases List.mem_cons.1 h with rfl | h
            · exact List.suffix_refl s
            · exact deeperCase p h
          · rcases List.mem_append.1 h with h | h
            · exact deeperCase p h
            · simp only [List.mem_singleton] at h
              subst h
              exact List.suffix_refl s
    | grp n r0 =>
      simp only [msplits] at h
      rcases List.mem_map.1 h with ⟨r1, hr1, rfl⟩
      exact ih r0 s r1 hr1
    | eos =>
      simp only [msplits] at h
      split at h
      · simp only [List.mem_singleton] at h
        subst h
        exact List.suffix_refl s
      · cases h

theorem AllDigit.suffix {s t : List Char} (h : AllDigit s) (hsuf : t <:+ s) :
    AllDigit t := fun c hc => h c (hsuf.subset hc)

theorem digit_ne_dot {c : Char} (h : isDigitB c = true) : c ≠ '.' := by
  rintro rfl
  exact absurd h (by decide)

theorem digit_ne_comma {c : Char} (h : isDigitB c = true) : c ≠ ',' := by
  rintro rfl
  exact absurd h (by decide)

theorem digit_not_sep {c : Char} (h : isDigitB c = true) : isSepB c = false := by
  simp [isSepB, digit_ne_dot h, digit_ne_comma h]

/-- The separator class fails on an all-digit input. -/
theorem msplits_sep_nil {s : List Char} (hd : AllDigit s) :
    ∀ fuel, msplits fuel (.cls isSepB) s = [] := by
  intro fuel
  cases fuel with
  | zero => rfl
  | succ fuel =>
    cases s with
    | nil => rfl
    | cons c rest =>
      simp [msplits, digit_not_sep (hd c (List.mem_cons_self c rest))]

/-- A concatenation that must start with a separator fails on an
all-digit input. -/
theorem msplits_sep_cat_nil {s : List Char} (hd : AllDigit s) :
    ∀ fuel (y : Re), msplits fuel (.cat (.cls isSepB) y) s = [] := by
  intro fuel y
  cases fuel with
  | zero => rfl
  | succ fuel =>
    simp [msplits, msplits_sep_nil hd fuel]

/-- A concatenation whose tail must start with a separator fails on an
all-digit input, whatever its head consumed. -/
theorem msplits_head_then_sep_nil {s : List Char} (hd : AllDigit s) :
    ∀ fuel (a y : Re), msplits fuel (.cat a (.cat (.cls isSepB) y)) s = [] := by
  intro fuel a y
  cases fuel with
  | zero => rfl
  | succ fuel =>
    simp only [msplits]
    apply List.flatMap_eq_nil_iff.2
    intro r1 hr1
    rw [msplits_sep_cat_nil (hd.suffix (msplits_suffix fuel a s r1 hr1)) fuel y]
    rfl

/-- The grouped-number pattern has no match in an all-digit line. -/
theorem msplits_numP1_nil {s : List Char} (hd : AllDigit s) :
    ∀ fuel, msplits fuel numP1 s = [] := by
  intro fuel
  cases fuel with
  | zero => rfl
  | succ fuel =>
    simp only [numP1, sepRe, msplits]
    rw [show (msplits fuel
        (.cat (.rep digitRe 1 (some 3) false)
          (.cat (.rep (.cat (.cls isSepB) (.rep digitRe 3 (some 3) false)) 0 none false)
            (.cat (.cls isSepB) (.rep digitRe 2 (some 2) false)))) s) = [] from ?_]
    · rfl
    cases fuel with
    | zero => rfl
    | succ fuel =>
      simp only [msplits]
      apply List.flatMap_eq_nil_iff.2
      intro r1 hr1
      rw [msplits_head_then_sep_nil
        (hd.suffix (msplits_suffix _ _ s r1 hr1)) fuel _ _]
      rfl

/-- The plain-decimal pattern has no match in an all-digit line. -/
theorem msplits_numP2_nil {s : List Char} (hd : AllDigit s) :
    ∀ fuel, msplits fuel numP2 s = [] := by
  intro fuel
  cases fuel with
  | zero => rfl
  | succ fuel =>
    simp only [numP2, sepRe, msplits]
    rw [msplits_head_then_sep_nil hd fuel _ _]
    rfl

/-- Scanning with a pattern that matches nowhere returns no matches. -/
theorem scanAllGo_nil {r : Re}
    (hnil : ∀ u, AllDigit u → ∀ fuel, msplits fuel r u = []) :
    ∀ n (s : List Char), AllDigit s → scanAllGo n r s = [] := by
  intro n
  induction n with
  | zero => intro s _; rfl
  | succ n ih =>
    intro s hs
    simp only [scanAllGo, hnil s hs (fuelFor s), List.head?_nil]
    cases s with
    | nil => rfl
    | cons c rest => exact ih rest fun x hx => hs x (List.mem_cons_of_mem c hx)

/-- The digit class consumes exactly one digit. -/
theorem msplits_digit_cons {c : Char} {rest : List Char}
    (hc : isDigitB c = true) {fuel : Nat} (hf : 1 ≤ fuel) :
    msplits fuel digitRe (c :: rest) = [(rest, [])] := by
  obtain ⟨f, rfl⟩ : ∃ f, fuel = f + 1 := ⟨fuel - 1, by omega⟩
  simp [msplits, digitRe, hc]

/-- The greedy unbounded digit run on an all-digit input prefers to
consume everything: the head of its split list is the empty remainder. -/
theorem rep0_digit_head :
    ∀ (s : List Char), AllDigit s → ∀ fuel, s.length + 1 ≤ fuel →
      (msplits fuel (.rep digitRe 0 none false) s).head? = some ([], []) := by
  intro s
  induction s with
  | nil =>
    intro _ fuel hf
    obtain ⟨f, rfl⟩ : ∃ f, fuel = f + 1 := ⟨fuel - 1, by omega⟩
    have hnil : msplits f digitRe [] = [] := by cases f <;> rfl
    simp [msplits, hnil]
  | cons c rest ih =>
    intro hd fuel hf
    obtain ⟨f, rfl⟩ : ∃ f, fuel = f + 1 := ⟨fuel - 1, by omega⟩
    have hf2 : rest.length + 1 + 1 ≤ f + 1 := by
      simpa [List.length_cons] using hf
    have hc : isDigitB c = true := hd c (List.mem_cons_self c rest)
    have hdr : AllDigit rest := fun x hx => hd x (List.mem_cons_of_mem c hx)
    simp only [msplits]
    rw [if_neg (by decide : ¬ (none : Option Nat) = some 0),
      if_neg (by decide : ¬ (0 : Nat) > 0),
      if_neg (by decide : ¬ false = true),
      msplits_digit_cons hc (by omega), List.flatMap_cons, List.flatMap_nil,
      List.append_nil]
    simp only [Option.map_none']
    rw [if_neg (by simp : ¬ rest.length = (c :: rest).length)]
    rw [List.head?_append, List.head?_map, ih hdr f (by omega)]
    rfl

/-- The digit run with a mandatory count on a long enough all-digit
input still prefers to consume everything. -/
theorem repn_digit_head :
    ∀ (n : Nat) (s : List Char), AllDigit s → n ≤ s.length →
      ∀ fuel, s.length + 2 ≤ fuel →
      (msplits fuel (.rep digitRe n none false) s).head? = some ([], []) := by
  intro n
  induction n with
  | zero =>
    intro s hd _ fuel hf
    exact rep0_digit_head s hd fuel (by omega)
  | succ n ih =>
    intro s hd hn fuel hf
    obtain ⟨c, rest, rfl⟩ : ∃ c rest, s = c :: rest := by
      cases s with
      | nil => simp at hn
      | cons c rest => exact ⟨c, rest, rfl⟩
    obtain ⟨f, rfl⟩ : ∃ f, fuel = f + 1 := ⟨fuel - 1, by omega⟩
    have hf2 : rest.length + 1 + 2 ≤ f + 1 := by
      simpa [List.length_cons] using hf
    have hc : isDigitB c = true := hd c (List.mem_cons_self c rest)
    have hdr : AllDigit rest := fun x hx => hd x (List.mem_cons_of_mem c hx)
    simp only [msplits]
    rw [if_neg (by decide : ¬ (none : Option Nat) = some 0),
      if_pos (by omega : n + 1 > 0),
      msplits_digit_cons hc (by omega), List.flatMap_cons, List.flatMap_nil,
      List.append_nil]
    simp only [Option.map_none', Nat.add_sub_cancel]
    rw [List.head?_map,
      ih rest hdr (by simpa [List.length_cons] using hn) f (by omega)]
    rfl

/-- The head match of the bare-integer pattern on an all-digit line of
four or more characters is the whole line, captured as group 1. -/
theorem numP3_head {s : List Char} (hd : AllDigit s) (h4 : 4 ≤ s.length) :
    (msplits (fuelFor s) numP3 s).head? = some ([], [(1, s)]) := by
  obtain ⟨f, hfeq⟩ : ∃ f, fuelFor s = f + 1 := ⟨fuelFor s - 1, by
    unfold fuelFor; omega⟩
  have hfge : s.length + 2 ≤ f := by
    have : fuelFor s = 2 * s.length + 64 := rfl
    omega
  rw [hfeq]
  simp only [numP3, msplits]
  rw [List.head?_map, repn_digit_head 4 s hd h4 f (by omega)]
  simp [List.take_length]

/-- Model of `scanAllGo` with the bare-integer pattern finds nothing in the empty
input. -/
theorem scanAllGo_numP3_empty : ∀ n, scanAllGo n numP3 [] = [] := by
  intro n
  cases n with
  | zero => rfl
  | succ n =>
    have h : (msplits (fuelFor []) numP3 []).head? = none := by decide
    simp [scanAllGo, h]

/-- On an all-digit line of four or more characters, `matchAll` with the
bare-integer pattern produces exactly one match: the whole line. -/
theorem scanAll_numP3 {s : List Char} (hd : AllDigit s) (h4 : 4 ≤ s.length) :
    scanAll numP3 s = [(s, [(1, s)])] := by
  unfold scanAll
  simp only [scanAllGo]
  rw [numP3_head hd h4]
  simp only [List.length_nil, Nat.sub_zero, List.take_length]
  rw [if_pos (by omega : 0 < s.length), scanAllGo_numP3_empty]

/-- On an all-digit line the first two number patterns find nothing and
the bare-integer pattern finds the whole line (four or more digits). -/
theorem numberTokens_all_digit {s : List Char} (hd : AllDigit s)
    (h4 : 4 ≤ s.length) :
    numberPatterns.flatMap (fun p => matchAllG1 p s) = [s] := by
  have h1 : matchAllG1 numP1 s = [] := by
    unfold matchAllG1 scanAll
    rw [scanAllGo_nil (fun u hu fuel => msplits_numP1_nil hu fuel) _ s hd]
    rfl
  have h2 : matchAllG1 numP2 s = [] := by
    unfold matchAllG1 scanAll
    rw [scanAllGo_nil (fun u hu fuel => msplits_numP2_nil hu fuel) _ s hd]
    rfl
  have h3 : matchAllG1 numP3 s = [s] := by
    unfold matchAllG1
    rw [scanAll_numP3 hd h4]
    rfl
  simp [numberPatterns, h1, h2, h3]

/-- Model of `parseFloat` of a non-empty all-digit string is its decimal value. -/
theorem jsParseFloat_digits {s : List Char} (hd : AllDigit s) (hne : s ≠ []) :
    jsParseFloat s = some ((natOfDigits s : ℚ)) := by
  unfold jsParseFloat
  rw [List.takeWhile_eq_self_iff.2 hd, List.dropWhile_eq_nil_iff.2 hd]
  simp [hne]

/-- Normalisation does not change an all-digit token (no commas). -/
theorem normalizeAmount_digits {s : List Char} (hd : AllDigit s) :
    normalizeAmount s = s := by
  have hcon : s.contains ',' = false := by
    rw [Bool.eq_false_iff]
    intro hc
    exact digit_ne_comma (hd ',' (List.elem_iff.1 hc)) rfl
  have hstrip : stripCommas s = s := by
    unfold stripCommas
    exact List.filter_eq_self.2 fun c hc => by
      simp [digit_ne_comma (hd c hc)]
  unfold normalizeAmount
  rw [hcon]
  simp [hstrip]

/-- C7 (amended): a line consisting of one bare integer token becomes an
amount candidate exactly when it has *four* or more digits (the pattern
is `/([0-9]{4,})/`, not 3+): for every all-digit line of length ≥ 4 whose
value lies in `[100, 999999999]`, the scan yields exactly that value. -/
theorem bare_integer_four_digits (s : List Char)
    (hd : ∀ c ∈ s, isDigitB c = true) (h4 : 4 ≤ s.length)
    (h100 : 100 ≤ natOfDigits s) (hmax : natOfDigits s ≤ 999999999) :
    extractNumbersFromLine s = [(natOfDigits s : ℚ)] := by
  unfold extractNumbersFromLine
  rw [numberTokens_all_digit hd h4]
  rw [List.foldl_cons, List.foldl_nil]
  unfold numStep
  rw [normalizeAmount_digits hd,
    jsParseFloat_digits hd (by intro h; subst h; simp at h4)]
  simp only
  rw [if_pos ⟨by exact_mod_cast h100, by exact_mod_cast hmax⟩]
  simp

/-- C7 amended-theorem witness on the line `4401`. -/
theorem bare_integer_four_digits_witness :
    (∀ c ∈ ("4401".data), isDigitB c = true) ∧ 4 ≤ ("4401".data).length ∧
      100 ≤ natOfDigits ("4401".data) ∧ natOfDigits ("4401".data) ≤ 999999999 ∧
      extractNumbersFromLine ("4401".data) = [(natOfDigits ("4401".data) : ℚ)] :=
  ⟨by decide, by decide, by decide, by decide,
    bare_integer_four_digits ("4401".data) (by decide) (by decide) (by decide)
      (by decide)⟩

end ClaimProofs

end OCR

